import Mathlib

/-!
# recipya: the SQL statement builder

A shallow embedding of `internal/repository/dbrepo/statements.go`: the two
builders `insertIntoNameTableStmt` and `insertIntoAssocTableStmt`, the fixed
texts of `insertRecipeStmt`, `updateRecipeStmt` and `deleteAssocTableEntries`,
and the placeholder bookkeeping that chains them.

Conventions of the embedding:

* a Go `string` is a Lean `String`, `+` is `++`;
* a Go `int` is an `Int` kept in the 64-bit range, `offset++` wraps with
  `wrapInt64`;
* a Go `map[string]string` is a function `String → Option String`;
  reading a missing key yields the empty string, and the map a builder
  mutates is returned next to its results; the map handed to a builder is an
  allocated one;
* a `for i, v := range xs` loop is a recursive function over `xs` that carries
  the index `i` and the variables of the loop.
-/

set_option maxRecDepth 100000

namespace Recipya

/-! ## Go primitives -/

/-- The largest Go `int` (64 bit). -/
def maxInt64 : Int := 9223372036854775807

/-- The smallest Go `int` (64 bit). -/
def minInt64 : Int := -9223372036854775808

/-- Wrap-around in two-complement form of Go `int` arithmetic (64 bit). -/
def wrapInt64 (x : Int) : Int :=
  (x + 9223372036854775808) % 18446744073709551616 - 9223372036854775808

/-- The values a Go `int` can hold. -/
def isInt64 (x : Int) : Prop := minInt64 ≤ x ∧ x ≤ maxInt64

instance (x : Int) : Decidable (isInt64 x) := by
  unfold isInt64; exact inferInstance

/-- Go `strconv.Itoa`: the decimal text of an `int`, with a leading `-` when negative. -/
def itoa : Int → String
  | Int.ofNat m => Nat.repr m
  | Int.negSucc m => "-" ++ Nat.repr (m + 1)

/-- Go `map[string]string`. -/
abbrev StrMap := String → Option String

/-- The map without any key. -/
def StrMap.empty : StrMap := fun _ => none

/-- Go `m[k]` as an expression: the value stored under `k`, or `""` when `k` is not a key. -/
def StrMap.lookup (m : StrMap) (k : String) : String := (m k).getD ""

/-- Go `m[k] = v`. -/
def StrMap.assign (m : StrMap) (k v : String) : StrMap :=
  fun x => if x = k then some v else m x

/-- Go `strings.SplitN(s, "_", 2)[0]`: the part of `s` before its first underscore,
all of `s` when it has none. -/
def splitNHead (s : String) : String := String.mk (s.data.takeWhile (fun c => c != '_'))

/-! ## Data model -/

/-- Modelled from the spec: the declaration of the struct `tableData` is not in
`statements.go`; these are the three fields the builders read from it. `Table` is the
name table, `AssocTable` the association table, `Entries` the child names. -/
structure tableData where
  Table : String
  AssocTable : String
  Entries : List String
deriving DecidableEq, Repr

/-! ## `insertIntoNameTableStmt` -/

/-- The `for i, v := range values` loop of `insertIntoNameTableStmt`; `n` is `len(values)`,
`i` the index of the head of the remaining values. -/
def insertIntoNameTableStmt.loop (n : Nat) :
    List String → Nat → String → Int → StrMap → String × Int × StrMap
  | [], _, stmt, offset, params => (stmt, offset, params)
  | v :: vs, i, stmt, offset, params =>
    let param := "$" ++ itoa offset
    let stmt := stmt ++ ("(" ++ param ++ ")")
    let stmt := if (i : Int) < (n : Int) - 1 then stmt ++ "," else stmt
    let params := params.assign v param
    let offset := wrapInt64 (offset + 1)
    insertIntoNameTableStmt.loop n vs (i + 1) stmt offset params

/-- `insertIntoNameTableStmt(name, values, offset, params)`: the returned statement, the
returned offset, and the map `params` as the call leaves it. -/
def insertIntoNameTableStmt (name : String) (values : List String) (offset : Int)
    (params : StrMap) : String × Int × StrMap :=
  if values.length = 0 then
    ("", offset, params)
  else
    let stmt := ", ins_" ++ name ++ " AS (\n\t\tINSERT INTO " ++ name ++ " (name) VALUES "
    let r := insertIntoNameTableStmt.loop values.length values 0 stmt offset params
    let stmt := r.1 ++ ("\n\t\tON CONFLICT ON CONSTRAINT " ++ name
      ++ "_name_key DO UPDATE\n\t\tSET name=NULL\n\t\tWHERE false\n\t\tRETURNING id, name\n\t)")
    (stmt, r.2.1, r.2.2)

/-! ## `insertIntoAssocTableStmt` -/

/-- The `for i, v := range td.Entries` loop of `insertIntoAssocTableStmt`; `n` is
`len(td.Entries)`, `i` the index of the head of the remaining entries. -/
def insertIntoAssocTableStmt.loop (td : tableData) (fromName : String) (params : StrMap)
    (recipeID : String) (n : Nat) : List String → Nat → String → String
  | [], _, stmt => stmt
  | v :: vs, i, stmt =>
    let whereClause := "WHERE name=" ++ params.lookup v
    let stmt := stmt ++ ("\n\t\t(\n\t\t\t(\n\t\t\t\tSELECT id FROM " ++ fromName ++ " " ++ whereClause
      ++ "\n\t\t\t\tUNION ALL\n\t\t\t\tSELECT id FROM " ++ td.Table ++ " " ++ whereClause
      ++ "\n\t\t\t),\n\t\t\t" ++ recipeID ++ "\n\t\t)")
    let stmt := if (i : Int) < (n : Int) - 1 then stmt ++ "," else stmt
    insertIntoAssocTableStmt.loop td fromName params recipeID n vs (i + 1) stmt

/-- `insertIntoAssocTableStmt(td, from, params, isInsRecipeDefiend)`. -/
def insertIntoAssocTableStmt (td : tableData) (fromName : String) (params : StrMap)
    (isInsRecipeDefiend : Bool) : String :=
  if td.Entries.length = 0 then
    ""
  else
    let col := splitNHead td.AssocTable
    let tname := "ins_" ++ col ++ "_recipe"
    let stmt := "," ++ tname ++ " AS (\n\t\tINSERT INTO " ++ td.AssocTable ++ " (" ++ col
      ++ "_id, recipe_id) VALUES "
    let recipeID := if isInsRecipeDefiend then "(SELECT id FROM ins_recipe)" else "$1"
    let stmt := insertIntoAssocTableStmt.loop td fromName params recipeID td.Entries.length
      td.Entries 0 stmt
    stmt ++ ")"

/-! ## The chain of name tables and the two recipe statements -/

/-- Modelled from the spec: the type `nameParams` is not in `statements.go`. The spec
describes it as the builder state: the accumulated insert-if-new fragments, the next free
parameter index, and the map from name to its assigned placeholder. -/
structure nameParams where
  stmts : List String
  offset : Int
  params : StrMap

/-- The loop over the tables of `nameParams.init`. -/
def nameParams.init.loop : List tableData → nameParams → nameParams
  | [], p => p
  | td :: tds, p =>
    let r := insertIntoNameTableStmt td.Table td.Entries p.offset p.params
    nameParams.init.loop tds ⟨p.stmts ++ [r.1], r.2.1, r.2.2⟩

/-- Modelled from the spec: the method `nameParams.init(tables, offset)` is not in
`statements.go`. By the spec the name lists are assigned placeholders starting at the
given position, in table order, each name consuming one placeholder, and the map from name to
placeholder is retained: one call of `insertIntoNameTableStmt` per table, each starting at the
offset the previous one returned. -/
def nameParams.init (tables : List tableData) (offset : Int) : nameParams :=
  nameParams.init.loop tables ⟨[], offset, StrMap.empty⟩

/-- Modelled from the spec: the method `nameParams.insertStmts(tables, isInsRecipeDefiend)`
is not in `statements.go`. By the spec each non-empty child list contributes an insert-if-new
stage and then a relink stage that reads the just-inserted rows of that list (the CTE
`ins_<table>`); the clearing of association rows is the separate delete statement. -/
def nameParams.insertStmts (p : nameParams) (tables : List tableData)
    (isInsRecipeDefiend : Bool) : String :=
  String.join p.stmts
    ++ String.join (tables.map
        (fun td => insertIntoAssocTableStmt td ("ins_" ++ td.Table) p.params isInsRecipeDefiend))

/-- The fixed text of insertRecipeStmt before the name-table stages. -/
def insertRecipeStmtHead : String :=
  String.join [
    "\n",
    "\t\tWITH ins_recipe AS (\n",
    "\t\t\tINSERT  INTO recipes (name, description, image, url, yield)\n",
    "\t\t\tVALUES ($2,$3,$4,$5,$6)\n",
    "\t\t\tRETURNING id\n",
    "\t\t), ins_category AS (\n",
    "\t\t\tINSERT INTO categories (name)\n",
    "\t\t\tVALUES ($7)\n",
    "\t\t\tON CONFLICT ON CONSTRAINT categories_name_key DO UPDATE\n",
    "\t\t\tSET name=NULL\n",
    "\t\t\tWHERE FALSE\n",
    "\t\t\tRETURNING id, name\n",
    "\t\t), ins_category_id AS (\n",
    "\t\t\tINSERT INTO category_recipe (recipe_id, category_id)\n",
    "\t\t\tVALUES (\n",
    "\t\t\t\t(\n",
    "\t\t\t\t\tSELECT id \n",
    "\t\t\t\t\tFROM ins_recipe\n",
    "\t\t\t\t),\n",
    "\t\t\t\t(\n",
    "\t\t\t\t\tSELECT id FROM ins_category\n",
    "\t\t\t\t\tUNION ALL\n",
    "\t\t\t\t\tSELECT id\n",
    "\t\t\t\t\tFROM categories\n",
    "\t\t\t\t\tWHERE name=$7\n",
    "\t\t\t\t)\n",
    "\t\t\t)\n",
    "\t\t),  ins_nutrition AS (\n",
    "\t\t\tINSERT INTO nutrition (\n",
    "\t\t\t\trecipe_id, calories, total_carbohydrates, sugars,\n",
    "\t\t\t\tprotein, total_fat, saturated_fat, cholesterol, sodium, fiber\n",
    "\t\t\t)\n",
    "\t\t\tVALUES ((SELECT id FROM ins_recipe),$8,$9,$10,$11,$12,$13,$14,$15,$16)\n",
    "\t\t\tRETURNING id\n",
    "\t\t),  ins_times AS (\n",
    "\t\t\tINSERT INTO times (prep, cook)\n",
    "\t\t\tVALUES ($17::interval, $18::interval)\n",
    "\t\t\tON CONFLICT ON CONSTRAINT times_prep_cook_key DO UPDATE\n",
    "\t\t\tSET prep=NULL\n",
    "\t\t\tWHERE FALSE\n",
    "\t\t\tRETURNING id, prep, cook, total\n",
    "\t\t), ins_time_recipe AS (\n",
    "\t\t\tINSERT INTO time_recipe (time_id, recipe_id)\n",
    "\t\t\tVALUES (\n",
    "\t\t\t\t(\n",
    "\t\t\t\t\tSELECT id FROM ins_times WHERE prep=$17::interval and cook=$18::interval\n",
    "\t\t\t\t\tUNION ALL\n",
    "\t\t\t\t\tSELECT id FROM times WHERE prep=$17::interval and cook=$18::interval\n",
    "\t\t\t\t),\n",
    "\t\t\t\t(\n",
    "\t\t\t\t\tSELECT id\n",
    "\t\t\t\t\tFROM ins_recipe\n",
    "\t\t\t\t)\n",
    "\t\t\t)\n",
    "\t\t), ins_user_recipe AS (\n",
    "\t\t\tINSERT INTO user_recipe (user_id, recipe_id)\n",
    "\t\t\tVALUES (\n",
    "\t\t\t\t$1,\n",
    "\t\t\t\t(SELECT id FROM ins_recipe)\n",
    "\t\t\t)\n",
    "\t\t)"
  ]

/-- The fixed text of insertRecipeStmt after the name-table stages. -/
def insertRecipeStmtTail : String :=
  String.join [
    "\n",
    "\tSELECT id FROM ins_recipe"
  ]

/-- The fixed text of updateRecipeStmt before the name-table stages. -/
def updateRecipeStmtHead : String :=
  String.join [
    "\n",
    "\t\tWITH ins_category AS (\n",
    "\t\t\tINSERT INTO categories (name)\n",
    "\t\t\tVALUES ($7)\n",
    "\t\t\tON CONFLICT ON CONSTRAINT categories_name_key DO UPDATE\n",
    "\t\t\tSET name=NULL\n",
    "\t\t\tWHERE FALSE\n",
    "\t\t\tRETURNING id, name\n",
    "\t\t), ins_category_id AS (\n",
    "\t\t\tUPDATE category_recipe \n",
    "\t\t\tSET \n",
    "\t\t\t\tcategory_id = (\n",
    "\t\t\t\t\tSELECT id FROM ins_category\n",
    "\t\t\t\t\tUNION ALL\n",
    "\t\t\t\t\tSELECT id FROM categories WHERE name=$7\n",
    "\t\t\t\t)\n",
    "\t\t\tWHERE recipe_id = $1\n",
    "\t\t), ins_nutrition AS (\n",
    "\t\t\tUPDATE nutrition \n",
    "\t\t\tSET \n",
    "\t\t\t\tcalories = $8, \n",
    "\t\t\t\ttotal_carbohydrates = $9, \n",
    "\t\t\t\tsugars = $10,\n",
    "\t\t\t\tprotein = $11,\n",
    "\t\t\t\ttotal_fat = $12,\n",
    "\t\t\t\tsaturated_fat = $13,\n",
    "\t\t\t\tcholesterol = $14,\n",
    "\t\t\t\tsodium = $15,\n",
    "\t\t\t\tfiber = $16\n",
    "\t\t\tWHERE recipe_id = $1\n",
    "\t\t), ins_times AS (\n",
    "\t\t\tINSERT INTO times (prep, cook)\n",
    "\t\t\tVALUES ($17::interval, $18::interval)\n",
    "\t\t\tON CONFLICT ON CONSTRAINT times_prep_cook_key DO UPDATE\n",
    "\t\t\tSET prep = NULL\n",
    "\t\t\tWHERE FALSE\n",
    "\t\t\tRETURNING id, prep, cook, total\n",
    "\t\t), ins_time_recipe AS (\n",
    "\t\t\tUPDATE time_recipe \n",
    "\t\t\tSET \n",
    "\t\t\t\ttime_id = (\n",
    "\t\t\t\t\tSELECT id FROM ins_times WHERE prep=$17::interval and cook=$18::interval\n",
    "\t\t\t\t\tUNION ALL\n",
    "\t\t\t\t\tSELECT id FROM times WHERE prep=$17::interval and cook=$18::interval\n",
    "\t\t\t\t)\n",
    "\t\t\tWHERE recipe_id = $1\n",
    "\t\t)"
  ]

/-- The fixed text of updateRecipeStmt after the name-table stages. -/
def updateRecipeStmtTail : String :=
  String.join [
    "\n",
    "\n",
    "\t\tUPDATE recipes r SET \n",
    "\t\t\tname = $2,\n",
    "\t\t\tdescription = $3,\n",
    "\t\t\timage = CASE \n",
    "\t\t\t\t\tWHEN \n",
    "\t\t\t\t\t\t$4 != uuid_nil() AND\n",
    "\t\t\t\t\t\t$4 != image\n",
    "\t\t\t\t\tTHEN $4\n",
    "\t\t\t\tELSE \n",
    "\t\t\t\t\timage\n",
    "\t\t\t\tEND,\n",
    "\t\t\turl = $5,\n",
    "\t\t\tyield = $6\n",
    "\t\tWHERE id = $1"
  ]

/-- The constant deleteAssocTableEntries. -/
def deleteAssocTableEntries : String :=
  String.join [
    "\n",
    "\tWITH del_ingredients AS (\n",
    "\t\tDELETE FROM ingredient_recipe\n",
    "\t\tWHERE recipe_id = $1\n",
    "\t), del_instructions AS (\n",
    "\t\tDELETE FROM instruction_recipe\n",
    "\t\tWHERE recipe_id = $1\n",
    "\t), del_tools AS (\n",
    "\t\tDELETE FROM tool_recipe\n",
    "\t\tWHERE recipe_id = $1\n",
    "\t)\n",
    "\n",
    "\tDELETE FROM keyword_recipe\n",
    "\tWHERE recipe_id = $1\n",
    ""
  ]

/-- `insertRecipeStmt(tables)`. -/
def insertRecipeStmt (tables : List tableData) : String :=
  insertRecipeStmtHead ++ (nameParams.init tables 19).insertStmts tables true
    ++ insertRecipeStmtTail

/-- `updateRecipeStmt(tables)`. -/
def updateRecipeStmt (tables : List tableData) : String :=
  updateRecipeStmtHead ++ (nameParams.init tables 19).insertStmts tables false
    ++ updateRecipeStmtTail

/-- Whether the text `pat` occurs in the text `s`. -/
def occursIn (pat s : String) : Prop := pat.data <:+: s.data

instance (pat s : String) : Decidable (occursIn pat s) := by
  unfold occursIn; exact inferInstance

/-! ## The image assignment of `updateRecipeStmt` -/

/-- A value of the SQL type `uuid`, as the 128-bit number it encodes. -/
abbrev Uuid := Nat

/-- The SQL function `uuid_nil()`: the all-zero uuid. -/
def uuid_nil : Uuid := 0

/-- SQL `a != b` on nullable values (`none` is NULL): unknown as soon as one side is NULL. -/
def sqlNe : Option Uuid → Option Uuid → Option Bool
  | some a, some b => some (a != b)
  | _, _ => none

/-- SQL `p AND q` in three-valued logic (`none` is unknown). -/
def sqlAnd : Option Bool → Option Bool → Option Bool
  | some false, _ => some false
  | _, some false => some false
  | some true, some true => some true
  | _, _ => none

/-- The expression assigned to `image` by `updateRecipeStmt`,
`CASE WHEN $4 != uuid_nil() AND $4 != image THEN $4 ELSE image END`, as a function of the
parameter `$4` and of the stored `image`; the `THEN` branch is taken only when the condition
is true. -/
def imageAssignment (p4 image : Option Uuid) : Option Uuid :=
  if sqlAnd (sqlNe p4 (some uuid_nil)) (sqlNe p4 image) = some true then p4 else image

/-! ## Closed forms used to state the results -/

/-- The placeholder token of the `i`-th value of a list that starts at `offset`:
`"$"` followed by the decimal text of `offset + i` in Go `int` arithmetic. -/
def placeholder (offset : Int) (i : Nat) : String := "$" ++ itoa (wrapInt64 (offset + i))

/-- The `i`-th parenthesised group of a VALUES list that starts at `offset`. -/
def valueGroup (offset : Int) (i : Nat) : String := "(" ++ placeholder offset i ++ ")"

/-- The text of `recipe_id` in a relink pair. -/
def recipeIDText (isInsRecipeDefiend : Bool) : String :=
  if isInsRecipeDefiend then "(SELECT id FROM ins_recipe)" else "$1"

/-- The `(child_id, recipe_id)` pair of the relink stage whose two lookups are filtered by
`"WHERE name=" ++ p`: the first branch of the union reads the just-inserted rows
(`fromName`), the second the name table (`table`). -/
def relinkPair (fromName table recipeID p : String) : String :=
  "\n\t\t(\n\t\t\t(\n\t\t\t\tSELECT id FROM " ++ fromName ++ " " ++ ("WHERE name=" ++ p)
    ++ "\n\t\t\t\tUNION ALL\n\t\t\t\tSELECT id FROM " ++ table ++ " " ++ ("WHERE name=" ++ p)
    ++ "\n\t\t\t),\n\t\t\t" ++ recipeID ++ "\n\t\t)"

/-- The insert-if-new stage for the table `name` whose VALUES groups are `groups`. -/
def nameStage (name : String) (groups : List String) : String :=
  ", ins_" ++ name ++ " AS (\n\t\tINSERT INTO " ++ name ++ " (name) VALUES "
    ++ ",".intercalate groups
    ++ ("\n\t\tON CONFLICT ON CONSTRAINT " ++ name
      ++ "_name_key DO UPDATE\n\t\tSET name=NULL\n\t\tWHERE false\n\t\tRETURNING id, name\n\t)")

/-- The relink stage for the association table `assoc` with column prefix `col` and the
pairs `pairs`. -/
def relinkStage (assoc col : String) (pairs : List String) : String :=
  "," ++ ("ins_" ++ col ++ "_recipe") ++ " AS (\n\t\tINSERT INTO " ++ assoc ++ " (" ++ col
    ++ "_id, recipe_id) VALUES " ++ ",".intercalate pairs ++ ")"

/-- The value of a decimal digit character. -/
def digitVal (c : Char) : Nat := c.toNat - 48

/-- Reads a list of decimal digits back as a number. -/
def decodeNat (cs : List Char) : Nat := cs.foldl (fun a c => a * 10 + digitVal c) 0

/-- The ten decimal digit characters. -/
def decimalDigits : List Char := ['0', '1', '2', '3', '4', '5', '6', '7', '8', '9']

/-- The pairs the relink stage emits, one per entry, in entry order. -/
def relinkPairs (td : tableData) (fromName : String) (params : StrMap)
    (isInsRecipeDefiend : Bool) : List String :=
  td.Entries.map
    (fun v => relinkPair fromName td.Table (recipeIDText isInsRecipeDefiend) (params.lookup v))

/-- The placeholders `$start, $(start+1), ..., $(start+len-1)`. -/
def placeholdersAt (start : Int) (len : Nat) : List String :=
  (List.range len).map (fun j => "$" ++ itoa (start + (j : Nat)))

/-- The insert-if-new stage of a list of `len` names whose first placeholder is `$start`;
the empty text when the list is empty. -/
def nameStageAt (name : String) (start : Int) (len : Nat) : String :=
  if len = 0 then "" else nameStage name ((placeholdersAt start len).map (fun p => "(" ++ p ++ ")"))

/-- The number of names in all child lists. -/
def totalEntries (tables : List tableData) : Nat := (tables.map (fun td => td.Entries.length)).sum

/-- The insert-if-new stages of the tables when the first placeholder is `$start`: each
list starts where the previous one ended. -/
def stagesFrom : List tableData → Int → List String
  | [], _ => []
  | td :: tds, start =>
    nameStageAt td.Table start td.Entries.length
      :: stagesFrom tds (start + (td.Entries.length : Nat))

/-! ## Lemmas: Go `int` arithmetic -/

theorem wrapInt64_of_isInt64 {x : Int} (h : isInt64 x) : wrapInt64 x = x := by
  unfold isInt64 minInt64 maxInt64 at h
  unfold wrapInt64
  omega

theorem isInt64_wrapInt64 (x : Int) : isInt64 (wrapInt64 x) := by
  unfold isInt64 minInt64 maxInt64 wrapInt64
  omega

theorem wrapInt64_wrapInt64_add (a b : Int) : wrapInt64 (wrapInt64 a + b) = wrapInt64 (a + b) := by
  unfold wrapInt64
  omega

theorem wrapInt64_step (off : Int) (k : Nat) :
    wrapInt64 (wrapInt64 (off + 1) + (k : Int)) = wrapInt64 (off + ((k + 1 : Nat) : Int)) := by
  rw [wrapInt64_wrapInt64_add]
  congr 1
  push_cast
  omega

theorem wrapInt64_inj_of_lt {off : Int} {i j : Nat}
    (hi : (i : Int) < 18446744073709551616) (hj : (j : Int) < 18446744073709551616)
    (h : wrapInt64 (off + i) = wrapInt64 (off + j)) : i = j := by
  unfold wrapInt64 at h
  omega

/-! ## Lemmas: comma-separated lists -/

theorem intercalate_go_eq (s : String) (l : List String) (acc : String) :
    String.intercalate.go acc s l = acc ++ String.intercalate.go "" s l := by
  induction l generalizing acc with
  | nil => simp [String.intercalate.go]
  | cons a as ih =>
    simp only [String.intercalate.go]
    rw [ih (acc ++ s ++ a), ih ("" ++ s ++ a)]
    simp [String.append_assoc]

theorem intercalate_singleton (s a : String) : s.intercalate [a] = a := by
  simp [String.intercalate, String.intercalate.go]

theorem intercalate_cons_cons (s a b : String) (l : List String) :
    s.intercalate (a :: b :: l) = a ++ s ++ s.intercalate (b :: l) := by
  simp only [String.intercalate, String.intercalate.go]
  rw [intercalate_go_eq s l (a ++ s ++ b), intercalate_go_eq s l b]
  simp [String.append_assoc]

/-! ## Lemmas: the loop of `insertIntoNameTableStmt` -/

theorem valueGroup_zero {off : Int} (h : isInt64 off) :
    valueGroup off 0 = "(" ++ ("$" ++ itoa off) ++ ")" := by
  simp [valueGroup, placeholder, wrapInt64_of_isInt64 h]

theorem valueGroup_step (off : Int) (k : Nat) :
    valueGroup (wrapInt64 (off + 1)) k = valueGroup off (k + 1) := by
  simp only [valueGroup, placeholder]
  rw [wrapInt64_step]

theorem map_valueGroup_range_succ (off : Int) (m : Nat) :
    (List.range (m + 1)).map (valueGroup off)
      = valueGroup off 0 :: (List.range m).map (valueGroup (wrapInt64 (off + 1))) := by
  rw [List.range_succ_eq_map, List.map_cons, List.map_map]
  congr 1
  apply List.map_congr_left
  intro k _
  simp [valueGroup_step]

theorem nameLoop_stmt (n : Nat) (vs : List String) :
    ∀ (i : Nat) (stmt : String) (off : Int) (m : StrMap), i + vs.length = n → isInt64 off →
      (insertIntoNameTableStmt.loop n vs i stmt off m).1
        = stmt ++ ",".intercalate ((List.range vs.length).map (valueGroup off)) := by
  induction vs with
  | nil =>
    intro i stmt off m _ _
    simp [insertIntoNameTableStmt.loop, String.intercalate]
  | cons v vs ih =>
    intro i stmt off m hlen hoff
    simp only [insertIntoNameTableStmt.loop, List.length_cons]
    rw [map_valueGroup_range_succ]
    cases vs with
    | nil =>
      have hi : ¬ ((i : Int) < (n : Int) - 1) := by
        simp only [List.length_cons, List.length_nil] at hlen
        omega
      simp only [if_neg hi, insertIntoNameTableStmt.loop, List.length_nil, List.range_zero,
        List.map_nil, intercalate_singleton, valueGroup_zero hoff]
    | cons w ws =>
      have hi : (i : Int) < (n : Int) - 1 := by
        simp only [List.length_cons] at hlen
        omega
      rw [if_pos hi]
      have hlen2 : (i + 1) + (w :: ws).length = n := by
        simp only [List.length_cons] at hlen ⊢
        omega
      rw [ih (i + 1) _ _ _ hlen2 (isInt64_wrapInt64 _)]
      simp only [List.length_cons]
      rw [map_valueGroup_range_succ (wrapInt64 (off + 1)) ws.length, intercalate_cons_cons,
        valueGroup_zero hoff]
      simp [String.append_assoc]

theorem nameLoop_offset (n : Nat) (vs : List String) :
    ∀ (i : Nat) (stmt : String) (off : Int) (m : StrMap), isInt64 off →
      (insertIntoNameTableStmt.loop n vs i stmt off m).2.1 = wrapInt64 (off + (vs.length : Nat)) := by
  induction vs with
  | nil =>
    intro i stmt off m hoff
    simp [insertIntoNameTableStmt.loop, wrapInt64_of_isInt64 hoff]
  | cons v vs ih =>
    intro i stmt off m _
    simp only [insertIntoNameTableStmt.loop, List.length_cons]
    rw [ih _ _ _ _ (isInt64_wrapInt64 _), wrapInt64_step]

/-- Keys outside the value list keep what the map held for them. -/
theorem nameLoop_map_of_not_mem (n : Nat) (vs : List String) :
    ∀ (i : Nat) (stmt : String) (off : Int) (m : StrMap) (k : String), k ∉ vs →
      (insertIntoNameTableStmt.loop n vs i stmt off m).2.2 k = m k := by
  induction vs with
  | nil =>
    intro i stmt off m k _
    simp [insertIntoNameTableStmt.loop]
  | cons v vs ih =>
    intro i stmt off m k hk
    simp only [insertIntoNameTableStmt.loop]
    rw [ih _ _ _ _ k (fun h => hk (List.mem_cons_of_mem _ h))]
    have : k ≠ v := fun h => hk (h ▸ List.mem_cons_self _ _)
    simp [StrMap.assign, this]

/-- Every name of the value list is mapped to the placeholder of one of its occurrences. -/
theorem nameLoop_map_of_mem (n : Nat) (vs : List String) :
    ∀ (i : Nat) (stmt : String) (off : Int) (m : StrMap) (k : String), isInt64 off → k ∈ vs →
      ∃ j, vs[j]? = some k ∧
        (insertIntoNameTableStmt.loop n vs i stmt off m).2.2 k = some (placeholder off j) := by
  induction vs with
  | nil =>
    intro i stmt off m k _ hk
    simp at hk
  | cons v vs ih =>
    intro i stmt off m k hoff hk
    simp only [insertIntoNameTableStmt.loop]
    by_cases hmem : k ∈ vs
    · obtain ⟨j, hj, hm⟩ := ih (i + 1)
        (if (i : Int) < (n : Int) - 1 then stmt ++ ("(" ++ ("$" ++ itoa off) ++ ")") ++ ","
          else stmt ++ ("(" ++ ("$" ++ itoa off) ++ ")"))
        (wrapInt64 (off + 1)) (m.assign v ("$" ++ itoa off)) k (isInt64_wrapInt64 _) hmem
      refine ⟨j + 1, by simpa using hj, ?_⟩
      rw [hm]
      simp only [placeholder]
      rw [wrapInt64_step]
    · have hkv : k = v := by
        rcases List.mem_cons.mp hk with h | h
        · exact h
        · exact absurd h hmem
      refine ⟨0, by simp [hkv], ?_⟩
      rw [nameLoop_map_of_not_mem n vs _ _ _ _ k hmem]
      simp [StrMap.assign, hkv, placeholder, wrapInt64_of_isInt64 hoff]

/-! ## Lemmas: the loop of `insertIntoAssocTableStmt` -/

theorem assocLoop_stmt (td : tableData) (fromName : String) (params : StrMap)
    (recipeID : String) (n : Nat) (vs : List String) :
    ∀ (i : Nat) (stmt : String), i + vs.length = n →
      insertIntoAssocTableStmt.loop td fromName params recipeID n vs i stmt
        = stmt ++ ",".intercalate
            (vs.map (fun v => relinkPair fromName td.Table recipeID (params.lookup v))) := by
  induction vs with
  | nil =>
    intro i stmt _
    simp [insertIntoAssocTableStmt.loop, String.intercalate]
  | cons v vs ih =>
    intro i stmt hlen
    simp only [insertIntoAssocTableStmt.loop, List.map_cons]
    cases vs with
    | nil =>
      have hi : ¬ ((i : Int) < (n : Int) - 1) := by
        simp only [List.length_cons, List.length_nil] at hlen
        omega
      simp only [if_neg hi, insertIntoAssocTableStmt.loop, List.map_nil, intercalate_singleton,
        relinkPair]
    | cons w ws =>
      have hi : (i : Int) < (n : Int) - 1 := by
        simp only [List.length_cons] at hlen
        omega
      rw [if_pos hi]
      have hlen2 : (i + 1) + (w :: ws).length = n := by
        simp only [List.length_cons] at hlen ⊢
        omega
      rw [ih (i + 1) _ hlen2]
      simp only [List.map_cons]
      rw [intercalate_cons_cons]
      simp [String.append_assoc, relinkPair]

theorem insertIntoAssocTableStmt_eq (td : tableData) (fromName : String) (params : StrMap)
    (b : Bool) (hne : td.Entries ≠ []) :
    insertIntoAssocTableStmt td fromName params b
      = relinkStage td.AssocTable (splitNHead td.AssocTable)
          (td.Entries.map
            (fun v => relinkPair fromName td.Table (recipeIDText b) (params.lookup v))) := by
  have hlen : ¬ td.Entries.length = 0 := by
    intro h
    exact hne (List.length_eq_zero.mp h)
  unfold insertIntoAssocTableStmt
  rw [if_neg hlen]
  simp only []
  rw [assocLoop_stmt td fromName params _ td.Entries.length td.Entries 0 _ (by omega)]
  simp [relinkStage, recipeIDText, String.append_assoc]

theorem insertIntoNameTableStmt_eq (name : String) (values : List String) (offset : Int)
    (params : StrMap) (hne : values ≠ []) (hoff : isInt64 offset) :
    (insertIntoNameTableStmt name values offset params).1
      = nameStage name ((List.range values.length).map (valueGroup offset)) := by
  have hlen : ¬ values.length = 0 := by
    intro h
    exact hne (List.length_eq_zero.mp h)
  unfold insertIntoNameTableStmt
  rw [if_neg hlen]
  simp only []
  rw [nameLoop_stmt values.length values 0 _ offset params (by omega) hoff]
  simp [nameStage, String.append_assoc]

theorem insertIntoNameTableStmt_offset (name : String) (values : List String) (offset : Int)
    (params : StrMap) (hoff : isInt64 offset) :
    (insertIntoNameTableStmt name values offset params).2.1
      = wrapInt64 (offset + (values.length : Nat)) := by
  unfold insertIntoNameTableStmt
  split
  · rename_i h
    simp [h, wrapInt64_of_isInt64 hoff]
  · simp only []
    rw [nameLoop_offset _ _ _ _ _ _ hoff]

theorem splitNHead_no_underscore (s : String) : '_' ∉ (splitNHead s).data := by
  intro h
  have := List.mem_takeWhile_imp h
  simp at this

theorem splitNHead_spec (s : String) :
    s = splitNHead s ∨ ∃ rest : String, s = splitNHead s ++ "_" ++ rest := by
  have h := List.takeWhile_append_dropWhile (fun c => c != '_') s.data
  cases hd : s.data.dropWhile (fun c => c != '_') with
  | nil =>
    left
    rw [hd, List.append_nil] at h
    apply String.ext
    simp [splitNHead, h]
  | cons c rest =>
    right
    have hc : c = '_' := by
      have hnot := List.head_dropWhile_not (fun c => c != '_') s.data (by simp [hd])
      simp only [hd, List.head_cons] at hnot
      simpa using hnot
    refine ⟨String.mk rest, ?_⟩
    apply String.ext
    rw [hd, hc] at h
    simp [splitNHead, String.data_append, h]

/-! ## Lemmas: decimal texts are distinct for distinct numbers -/

theorem digitVal_digitChar {k : Nat} (h : k < 10) : digitVal (Nat.digitChar k) = k := by
  interval_cases k <;> rfl

theorem digitChar_mem_decimalDigits {k : Nat} (h : k < 10) : Nat.digitChar k ∈ decimalDigits := by
  interval_cases k <;> decide

theorem toDigitsCore_append (fuel : Nat) :
    ∀ (n : Nat) (ds : List Char),
      Nat.toDigitsCore 10 fuel n ds = Nat.toDigitsCore 10 fuel n [] ++ ds := by
  induction fuel with
  | zero => intro n ds; simp [Nat.toDigitsCore]
  | succ f ih =>
    intro n ds
    simp only [Nat.toDigitsCore]
    split
    · simp
    · rw [ih (n / 10) (Nat.digitChar (n % 10) :: ds), ih (n / 10) [Nat.digitChar (n % 10)]]
      simp

theorem decodeNat_append_singleton (xs : List Char) (c : Char) :
    decodeNat (xs ++ [c]) = decodeNat xs * 10 + digitVal c := by
  simp [decodeNat, List.foldl_append]

theorem decodeNat_toDigitsCore (fuel : Nat) :
    ∀ n : Nat, n < fuel → decodeNat (Nat.toDigitsCore 10 fuel n []) = n := by
  induction fuel with
  | zero => intro n h; omega
  | succ f ih =>
    intro n h
    simp only [Nat.toDigitsCore]
    split
    · rename_i h0
      have hn : n < 10 := by omega
      have hmod : n % 10 = n := Nat.mod_eq_of_lt hn
      simp [decodeNat, hmod, digitVal_digitChar hn]
    · rename_i h0
      rw [toDigitsCore_append, decodeNat_append_singleton, ih (n / 10) (by omega),
        digitVal_digitChar (Nat.mod_lt n (by decide))]
      omega

theorem toDigitsCore_mem_decimalDigits (fuel : Nat) :
    ∀ (n : Nat) (ds : List Char), (∀ c ∈ ds, c ∈ decimalDigits) →
      ∀ c ∈ Nat.toDigitsCore 10 fuel n ds, c ∈ decimalDigits := by
  induction fuel with
  | zero => intro n ds h; simpa [Nat.toDigitsCore] using h
  | succ f ih =>
    intro n ds h
    have hd : ∀ c ∈ Nat.digitChar (n % 10) :: ds, c ∈ decimalDigits := by
      intro c hc
      rcases List.mem_cons.mp hc with rfl | hc
      · exact digitChar_mem_decimalDigits (Nat.mod_lt n (by decide))
      · exact h c hc
    simp only [Nat.toDigitsCore]
    split
    · exact hd
    · exact ih (n / 10) _ hd

theorem repr_data_mem_decimalDigits (n : Nat) : ∀ c ∈ (Nat.repr n).data, c ∈ decimalDigits := by
  simp only [Nat.repr, Nat.toDigits, List.asString]
  exact toDigitsCore_mem_decimalDigits _ _ _ (by simp)

theorem repr_data_ne_nil (n : Nat) : (Nat.repr n).data ≠ [] := by
  simp only [Nat.repr, Nat.toDigits, List.asString, Nat.toDigitsCore]
  split
  · simp
  · rw [toDigitsCore_append]
    simp

theorem repr_injective {a b : Nat} (h : Nat.repr a = Nat.repr b) : a = b := by
  have hd : Nat.toDigits 10 a = Nat.toDigits 10 b := by
    have := congrArg String.data h
    simpa [Nat.repr, List.asString] using this
  have ha := decodeNat_toDigitsCore (a + 1) a (by omega)
  have hb := decodeNat_toDigitsCore (b + 1) b (by omega)
  simp only [Nat.toDigits] at hd
  rw [hd] at ha
  omega

theorem itoa_injective {a b : Int} (h : itoa a = itoa b) : a = b := by
  have hminus : ∀ (m k : Nat), Nat.repr m ≠ "-" ++ Nat.repr k := by
    intro m k hmk
    have hdata := congrArg String.data hmk
    simp only [String.data_append] at hdata
    have hmem : '-' ∈ (Nat.repr m).data := by
      rw [hdata]; simp
    have := repr_data_mem_decimalDigits m _ hmem
    revert this
    decide
  cases a with
  | ofNat m =>
    cases b with
    | ofNat k =>
      simp only [itoa] at h
      rw [repr_injective h]
    | negSucc k =>
      simp only [itoa] at h
      exact absurd h (hminus m (k + 1))
  | negSucc m =>
    cases b with
    | ofNat k =>
      simp only [itoa] at h
      exact absurd h.symm (hminus k (m + 1))
    | negSucc k =>
      simp only [itoa] at h
      have hdata := congrArg String.data h
      simp only [String.data_append, List.append_cancel_left_eq] at hdata
      have := repr_injective (String.ext hdata)
      have hmk : m = k := by omega
      rw [hmk]

theorem placeholder_injective {off : Int} {i j : Nat}
    (hi : (i : Int) < 18446744073709551616) (hj : (j : Int) < 18446744073709551616)
    (h : placeholder off i = placeholder off j) : i = j := by
  simp only [placeholder] at h
  have hdata := congrArg String.data h
  simp only [String.data_append, List.append_cancel_left_eq] at hdata
  exact wrapInt64_inj_of_lt hi hj (itoa_injective (String.ext hdata))

/-! ## The insert-if-new stage -/

theorem nameLoop_names_irrelevant (n : Nat) (vs : List String) :
    ∀ (ws : List String) (i : Nat) (stmt : String) (off : Int) (m m2 : StrMap),
      vs.length = ws.length →
      (insertIntoNameTableStmt.loop n vs i stmt off m).1
          = (insertIntoNameTableStmt.loop n ws i stmt off m2).1
        ∧ (insertIntoNameTableStmt.loop n vs i stmt off m).2.1
          = (insertIntoNameTableStmt.loop n ws i stmt off m2).2.1 := by
  induction vs with
  | nil =>
    intro ws i stmt off m m2 h
    cases ws with
    | nil => simp [insertIntoNameTableStmt.loop]
    | cons w ws => simp at h
  | cons v vs ih =>
    intro ws i stmt off m m2 h
    cases ws with
    | nil => simp at h
    | cons w ws =>
      simp only [insertIntoNameTableStmt.loop]
      exact ih ws _ _ _ _ _ (by simpa using h)

/-- C1: For a non-empty value list, `insertIntoNameTableStmt` returns `offset +
len(values)` (Go `int` arithmetic) as the next free offset, and the VALUES list of its
statement is the comma-separated list, without trailing comma, of the groups
`($k)` for `k = offset, offset+1, ..., offset+len(values)-1`, one group per value of the list.
As long as `offset + len(values)` fits in an `int`, the sums are the plain integer sums. -/
theorem insertIntoNameTableStmt_values (name : String) (values : List String) (offset : Int)
    (params : StrMap) (hne : values ≠ []) (hoff : isInt64 offset) :
    (insertIntoNameTableStmt name values offset params).2.1
        = wrapInt64 (offset + (values.length : Nat))
      ∧ (insertIntoNameTableStmt name values offset params).1
        = ", ins_" ++ name ++ " AS (\n\t\tINSERT INTO " ++ name ++ " (name) VALUES "
          ++ ",".intercalate ((List.range values.length).map
              (fun i => "(" ++ ("$" ++ itoa (wrapInt64 (offset + (i : Nat)))) ++ ")"))
          ++ ("\n\t\tON CONFLICT ON CONSTRAINT " ++ name
            ++ "_name_key DO UPDATE\n\t\tSET name=NULL\n\t\tWHERE false\n\t\tRETURNING id, name\n\t)")
      ∧ (offset + (values.length : Nat) ≤ maxInt64 →
          (insertIntoNameTableStmt name values offset params).2.1 = offset + (values.length : Nat)
            ∧ ∀ i : Nat, i < values.length → wrapInt64 (offset + (i : Nat)) = offset + (i : Nat)) := by
  refine ⟨insertIntoNameTableStmt_offset name values offset params hoff, ?_, ?_⟩
  · rw [insertIntoNameTableStmt_eq name values offset params hne hoff]
    rfl
  · intro hfit
    have hmin := hoff.1
    unfold minInt64 at hmin
    unfold maxInt64 at hfit
    refine ⟨?_, ?_⟩
    · rw [insertIntoNameTableStmt_offset name values offset params hoff]
      unfold wrapInt64
      omega
    · intro i hi
      unfold wrapInt64
      omega

theorem insertIntoNameTableStmt_values_witness :
    (insertIntoNameTableStmt "tools" ["whisk", "bowl", "whisk"] 19 StrMap.empty).2.1
        = wrapInt64 (19 + (3 : Nat))
      ∧ (insertIntoNameTableStmt "tools" ["whisk", "bowl", "whisk"] 19 StrMap.empty).1
        = ", ins_" ++ "tools" ++ " AS (\n\t\tINSERT INTO " ++ "tools" ++ " (name) VALUES "
          ++ ",".intercalate ((List.range 3).map
              (fun i => "(" ++ ("$" ++ itoa (wrapInt64 (19 + (i : Nat)))) ++ ")"))
          ++ ("\n\t\tON CONFLICT ON CONSTRAINT " ++ "tools"
            ++ "_name_key DO UPDATE\n\t\tSET name=NULL\n\t\tWHERE false\n\t\tRETURNING id, name\n\t)")
      ∧ ((19 : Int) + (3 : Nat) ≤ maxInt64 →
          (insertIntoNameTableStmt "tools" ["whisk", "bowl", "whisk"] 19 StrMap.empty).2.1
              = 19 + (3 : Nat)
            ∧ ∀ i : Nat, i < 3 → wrapInt64 (19 + (i : Nat)) = 19 + (i : Nat)) :=
  insertIntoNameTableStmt_values "tools" ["whisk", "bowl", "whisk"] 19 StrMap.empty
    (by decide) (by decide)

/-- C3: An empty child list is a no-op for the builder: on an empty value list
`insertIntoNameTableStmt` returns the empty string and the offset it was given and leaves
the map as it was; with empty `Entries`, `insertIntoAssocTableStmt` returns the empty string
for either value of `isInsRecipeDefiend`; and a list that follows the empty one is built
exactly as if the empty list had not been there. -/
theorem empty_child_list_is_noop (name : String) (offset : Int) (params : StrMap)
    (table assoc fromName : String) (assocParams : StrMap) (isInsRecipeDefiend : Bool)
    (nextName : String) (nextValues : List String) :
    insertIntoNameTableStmt name [] offset params = ("", offset, params)
      ∧ insertIntoAssocTableStmt ⟨table, assoc, []⟩ fromName assocParams isInsRecipeDefiend = ""
      ∧ insertIntoNameTableStmt nextName nextValues
            (insertIntoNameTableStmt name [] offset params).2.1
            (insertIntoNameTableStmt name [] offset params).2.2
          = insertIntoNameTableStmt nextName nextValues offset params := by
  refine ⟨?_, ?_, ?_⟩ <;> simp [insertIntoNameTableStmt, insertIntoAssocTableStmt]

/-- C10: The text built by `insertIntoNameTableStmt` does not depend on the names: for one
table name and one start offset, two value lists of the same length give the same statement
text and the same returned offset, whatever the names are and whatever the maps hold. -/
theorem insertIntoNameTableStmt_names_irrelevant (name : String) (offset : Int)
    (values values2 : List String) (params params2 : StrMap)
    (hlen : values.length = values2.length) :
    (insertIntoNameTableStmt name values offset params).1
        = (insertIntoNameTableStmt name values2 offset params2).1
      ∧ (insertIntoNameTableStmt name values offset params).2.1
        = (insertIntoNameTableStmt name values2 offset params2).2.1 := by
  unfold insertIntoNameTableStmt
  by_cases h : values.length = 0
  · have h2 : values2.length = 0 := by omega
    simp [h, h2]
  · have h2 : ¬ values2.length = 0 := by omega
    simp only [if_neg h, if_neg h2]
    have key := nameLoop_names_irrelevant values.length values values2 0
      (", ins_" ++ name ++ " AS (\n\t\tINSERT INTO " ++ name ++ " (name) VALUES ") offset
      params params2 hlen
    rw [← hlen]
    exact ⟨by rw [key.1], key.2⟩

theorem insertIntoNameTableStmt_names_irrelevant_witness :
    (insertIntoNameTableStmt "keywords" ["soup", "50% (v/v) $1"] 19
          StrMap.empty).1
        = (insertIntoNameTableStmt "keywords" ["a", "a"] 19 (StrMap.empty.assign "a" "$3")).1
      ∧ (insertIntoNameTableStmt "keywords" ["soup", "50% (v/v) $1"] 19
          StrMap.empty).2.1
        = (insertIntoNameTableStmt "keywords" ["a", "a"] 19 (StrMap.empty.assign "a" "$3")).2.1 :=
  insertIntoNameTableStmt_names_irrelevant "keywords" 19
    ["soup", "50% (v/v) $1"] ["a", "a"] StrMap.empty
    (StrMap.empty.assign "a" "$3") (by decide)

/-! ## The relink stage -/

/-- C5: for non-empty `Entries`, `insertIntoAssocTableStmt` returns the CTE
`ins_<col>_recipe` that inserts into `td.AssocTable (<col>_id, recipe_id)`, where `<col>` is
the part of `td.AssocTable` before its first underscore; its VALUES list holds one
`(child_id, recipe_id)` pair per entry, in entry order, comma-separated without trailing
comma; each `child_id` is a union whose first branch selects `id` from `fromName` and whose
second branch selects `id` from `td.Table`, both filtered by `WHERE name=` and the placeholder
the map holds for that entry; `recipe_id` is `(SELECT id FROM ins_recipe)` when
`isInsRecipeDefiend` is true and `$1` when it is false. -/
theorem insertIntoAssocTableStmt_shape (td : tableData) (fromName : String) (params : StrMap)
    (isInsRecipeDefiend : Bool) (hne : td.Entries ≠ []) :
    insertIntoAssocTableStmt td fromName params isInsRecipeDefiend
        = "," ++ ("ins_" ++ splitNHead td.AssocTable ++ "_recipe") ++ " AS (\n\t\tINSERT INTO "
          ++ td.AssocTable ++ " (" ++ splitNHead td.AssocTable ++ "_id, recipe_id) VALUES "
          ++ ",".intercalate (td.Entries.map (fun v =>
              "\n\t\t(\n\t\t\t(\n\t\t\t\tSELECT id FROM " ++ fromName ++ " "
                ++ ("WHERE name=" ++ params.lookup v)
                ++ "\n\t\t\t\tUNION ALL\n\t\t\t\tSELECT id FROM " ++ td.Table ++ " "
                ++ ("WHERE name=" ++ params.lookup v)
                ++ "\n\t\t\t),\n\t\t\t"
                ++ (if isInsRecipeDefiend then "(SELECT id FROM ins_recipe)" else "$1")
                ++ "\n\t\t)"))
          ++ ")"
      ∧ '_' ∉ (splitNHead td.AssocTable).data
      ∧ (td.AssocTable = splitNHead td.AssocTable
          ∨ ∃ rest : String, td.AssocTable = splitNHead td.AssocTable ++ "_" ++ rest) := by
  refine ⟨?_, splitNHead_no_underscore _, splitNHead_spec _⟩
  rw [insertIntoAssocTableStmt_eq td fromName params isInsRecipeDefiend hne]
  rfl

theorem insertIntoAssocTableStmt_shape_witness :
    insertIntoAssocTableStmt ⟨"tools", "tool_recipe", ["whisk", "bowl"]⟩ "ins_tools"
          ((StrMap.empty.assign "whisk" "$19").assign "bowl" "$20") true
        = "," ++ ("ins_" ++ splitNHead "tool_recipe" ++ "_recipe") ++ " AS (\n\t\tINSERT INTO "
          ++ "tool_recipe" ++ " (" ++ splitNHead "tool_recipe" ++ "_id, recipe_id) VALUES "
          ++ ",".intercalate (["whisk", "bowl"].map (fun v =>
              "\n\t\t(\n\t\t\t(\n\t\t\t\tSELECT id FROM " ++ "ins_tools" ++ " "
                ++ ("WHERE name="
                  ++ ((StrMap.empty.assign "whisk" "$19").assign "bowl" "$20").lookup v)
                ++ "\n\t\t\t\tUNION ALL\n\t\t\t\tSELECT id FROM " ++ "tools" ++ " "
                ++ ("WHERE name="
                  ++ ((StrMap.empty.assign "whisk" "$19").assign "bowl" "$20").lookup v)
                ++ "\n\t\t\t),\n\t\t\t"
                ++ (if true then "(SELECT id FROM ins_recipe)" else "$1")
                ++ "\n\t\t)"))
          ++ ")"
      ∧ '_' ∉ (splitNHead "tool_recipe").data
      ∧ ("tool_recipe" = splitNHead "tool_recipe"
          ∨ ∃ rest : String, "tool_recipe" = splitNHead "tool_recipe" ++ "_" ++ rest) :=
  insertIntoAssocTableStmt_shape ⟨"tools", "tool_recipe", ["whisk", "bowl"]⟩ "ins_tools"
    ((StrMap.empty.assign "whisk" "$19").assign "bowl" "$20") true (by decide)

theorem insertIntoNameTableStmt_map_of_mem (name : String) (values : List String)
    (offset : Int) (params : StrMap) (hoff : isInt64 offset) (v : String) (hv : v ∈ values) :
    ∃ i, values[i]? = some v
      ∧ (insertIntoNameTableStmt name values offset params).2.2 v
          = some (placeholder offset i) := by
  have hlen : ¬ values.length = 0 := by
    intro h
    rw [List.length_eq_zero.mp h] at hv
    simp at hv
  unfold insertIntoNameTableStmt
  rw [if_neg hlen]
  exact nameLoop_map_of_mem values.length values 0 _ offset params v hoff hv

/-- C2: when the map is filled by `insertIntoNameTableStmt` on a list of names and
`insertIntoAssocTableStmt` is built with `Entries` equal to that list and with that map, the
insert-if-new stage has the VALUES groups `(p 0),(p 1),...` with `p i` the placeholder of
position `i`, the relink stage has one pair per name whose two lookups both read
`WHERE name=` followed by the map entry of the name, and that entry is `p i` for a position
`i` at which the list holds this very name; repeated names are included. -/
theorem relink_reads_assigned_placeholder (name : String) (values : List String) (offset : Int)
    (params : StrMap) (td : tableData) (fromName : String) (isInsRecipeDefiend : Bool)
    (hoff : isInt64 offset) (htd : td.Entries = values) :
    (values ≠ [] →
        (insertIntoNameTableStmt name values offset params).1
            = nameStage name ((List.range values.length).map
                (fun i => "(" ++ placeholder offset i ++ ")"))
          ∧ insertIntoAssocTableStmt td fromName
              (insertIntoNameTableStmt name values offset params).2.2 isInsRecipeDefiend
            = relinkStage td.AssocTable (splitNHead td.AssocTable)
                (values.map (fun v =>
                  relinkPair fromName td.Table (recipeIDText isInsRecipeDefiend)
                    ((insertIntoNameTableStmt name values offset params).2.2.lookup v))))
      ∧ ∀ v ∈ values, ∃ i, values[i]? = some v
          ∧ (insertIntoNameTableStmt name values offset params).2.2.lookup v
              = placeholder offset i := by
  refine ⟨?_, ?_⟩
  · intro hne
    refine ⟨?_, ?_⟩
    · rw [insertIntoNameTableStmt_eq name values offset params hne hoff]
      rfl
    · rw [insertIntoAssocTableStmt_eq td fromName _ isInsRecipeDefiend (htd ▸ hne), htd]
  · intro v hv
    obtain ⟨i, hi, hm⟩ := insertIntoNameTableStmt_map_of_mem name values offset params hoff v hv
    exact ⟨i, hi, by simp [StrMap.lookup, hm]⟩

theorem relink_reads_assigned_placeholder_witness :
    (["salt", "oil", "salt"] ≠ [] →
        (insertIntoNameTableStmt "ingredients" ["salt", "oil", "salt"] 19 StrMap.empty).1
            = nameStage "ingredients" ((List.range ["salt", "oil", "salt"].length).map
                (fun i => "(" ++ placeholder 19 i ++ ")"))
          ∧ insertIntoAssocTableStmt ⟨"ingredients", "ingredient_recipe", ["salt", "oil", "salt"]⟩
              "ins_ingredients"
              (insertIntoNameTableStmt "ingredients" ["salt", "oil", "salt"] 19
                StrMap.empty).2.2 true
            = relinkStage "ingredient_recipe" (splitNHead "ingredient_recipe")
                (["salt", "oil", "salt"].map (fun v =>
                  relinkPair "ins_ingredients" "ingredients" (recipeIDText true)
                    ((insertIntoNameTableStmt "ingredients" ["salt", "oil", "salt"] 19
                      StrMap.empty).2.2.lookup v))))
      ∧ ∀ v ∈ ["salt", "oil", "salt"], ∃ i, ["salt", "oil", "salt"][i]? = some v
          ∧ (insertIntoNameTableStmt "ingredients" ["salt", "oil", "salt"] 19
                StrMap.empty).2.2.lookup v
              = placeholder 19 i :=
  relink_reads_assigned_placeholder "ingredients" ["salt", "oil", "salt"] 19 StrMap.empty
    ⟨"ingredients", "ingredient_recipe", ["salt", "oil", "salt"]⟩ "ins_ingredients" true
    (by decide) rfl

/-! ## Repeated names in the relink stage -/

theorem relinkPair_injective {fromName table recipeID p q : String}
    (h : relinkPair fromName table recipeID p = relinkPair fromName table recipeID q) :
    p = q := by
  have hdata := congrArg String.data h
  simp only [relinkPair, String.data_append, List.append_assoc,
    List.append_cancel_left_eq] at hdata
  have hlen := congrArg List.length hdata
  simp only [List.length_append] at hlen
  have hpq : p.data.length = q.data.length := by omega
  exact String.ext (List.append_inj hdata hpq).1

/-- Two names of the value list that read the same placeholder are the same name. -/
theorem lookup_injOn (name : String) (values : List String) (offset : Int)
    (params : StrMap) (hoff : isInt64 offset)
    (hfit : (values.length : Int) ≤ 18446744073709551616) :
    ∀ v ∈ values, ∀ w ∈ values,
      (insertIntoNameTableStmt name values offset params).2.2.lookup v
          = (insertIntoNameTableStmt name values offset params).2.2.lookup w → v = w := by
  intro v hv w hw h
  obtain ⟨i, hi, hmi⟩ := insertIntoNameTableStmt_map_of_mem name values offset params hoff v hv
  obtain ⟨j, hj, hmj⟩ := insertIntoNameTableStmt_map_of_mem name values offset params hoff w hw
  simp only [StrMap.lookup, hmi, hmj, Option.getD_some] at h
  have hil : i < values.length := (List.getElem?_eq_some.mp hi).1
  have hjl : j < values.length := (List.getElem?_eq_some.mp hj).1
  have hij : i = j := placeholder_injective (by omega) (by omega) h
  rw [hij, hj] at hi
  exact (Option.some.inj hi).symm

/-- C7, as the code has it: each entry emits one pair, so an entry list without
repeated names, relinked with the map `insertIntoNameTableStmt` built from it, yields
pairwise different pairs (different names read different placeholders). The builder does not
remove repeated names. -/
theorem relinkPairs_nodup (td : tableData) (name fromName : String) (offset : Int)
    (params : StrMap) (isInsRecipeDefiend : Bool) (hoff : isInt64 offset)
    (hne : td.Entries ≠ []) (hnd : td.Entries.Nodup)
    (hfit : (td.Entries.length : Int) ≤ 18446744073709551616) :
    insertIntoAssocTableStmt td fromName
          (insertIntoNameTableStmt name td.Entries offset params).2.2 isInsRecipeDefiend
        = relinkStage td.AssocTable (splitNHead td.AssocTable)
            (relinkPairs td fromName
              (insertIntoNameTableStmt name td.Entries offset params).2.2 isInsRecipeDefiend)
      ∧ (relinkPairs td fromName
            (insertIntoNameTableStmt name td.Entries offset params).2.2
            isInsRecipeDefiend).length = td.Entries.length
      ∧ (relinkPairs td fromName
            (insertIntoNameTableStmt name td.Entries offset params).2.2
            isInsRecipeDefiend).Nodup := by
  refine ⟨?_, ?_, ?_⟩
  · rw [insertIntoAssocTableStmt_eq td fromName _ isInsRecipeDefiend hne]
    rfl
  · simp [relinkPairs]
  · unfold relinkPairs
    apply List.Nodup.map_on _ hnd
    intro v hv w hw h
    exact lookup_injOn name td.Entries offset params hoff hfit v hv w hw
      (relinkPair_injective h)

theorem relinkPairs_nodup_witness :
    insertIntoAssocTableStmt ⟨"keywords", "keyword_recipe", ["soup", "vegan"]⟩ "ins_keywords"
          (insertIntoNameTableStmt "keywords" ["soup", "vegan"] 19 StrMap.empty).2.2 false
        = relinkStage "keyword_recipe" (splitNHead "keyword_recipe")
            (relinkPairs ⟨"keywords", "keyword_recipe", ["soup", "vegan"]⟩ "ins_keywords"
              (insertIntoNameTableStmt "keywords" ["soup", "vegan"] 19 StrMap.empty).2.2 false)
      ∧ (relinkPairs ⟨"keywords", "keyword_recipe", ["soup", "vegan"]⟩ "ins_keywords"
            (insertIntoNameTableStmt "keywords" ["soup", "vegan"] 19 StrMap.empty).2.2
            false).length = 2
      ∧ (relinkPairs ⟨"keywords", "keyword_recipe", ["soup", "vegan"]⟩ "ins_keywords"
            (insertIntoNameTableStmt "keywords" ["soup", "vegan"] 19 StrMap.empty).2.2
            false).Nodup :=
  relinkPairs_nodup ⟨"keywords", "keyword_recipe", ["soup", "vegan"]⟩ "keywords" "ins_keywords"
    19 StrMap.empty false (by decide) (by decide) (by decide) (by decide)

/-- C7 fails as stated: with the name `soup` twice in `Entries` and the map built from these
entries, the relink stage emits the same pair twice. -/
theorem relinkPairs_repeated_name :
    insertIntoAssocTableStmt ⟨"keywords", "keyword_recipe", ["soup", "soup"]⟩ "ins_keywords"
          (insertIntoNameTableStmt "keywords" ["soup", "soup"] 19 StrMap.empty).2.2 false
        = relinkStage "keyword_recipe" "keyword"
            [relinkPair "ins_keywords" "keywords" "$1" "$20",
             relinkPair "ins_keywords" "keywords" "$1" "$20"]
      ∧ relinkPairs ⟨"keywords", "keyword_recipe", ["soup", "soup"]⟩ "ins_keywords"
          (insertIntoNameTableStmt "keywords" ["soup", "soup"] 19 StrMap.empty).2.2 false
        = [relinkPair "ins_keywords" "keywords" "$1" "$20",
           relinkPair "ins_keywords" "keywords" "$1" "$20"]
      ∧ ¬ (relinkPairs ⟨"keywords", "keyword_recipe", ["soup", "soup"]⟩ "ins_keywords"
          (insertIntoNameTableStmt "keywords" ["soup", "soup"] 19 StrMap.empty).2.2
          false).Nodup := by
  refine ⟨by decide, by decide, by decide⟩

/-! ## Placeholder numbering across the child lists -/

theorem insertIntoNameTableStmt_at (name : String) (values : List String) (offset : Int)
    (params : StrMap) (hmin : minInt64 ≤ offset)
    (hfit : offset + (values.length : Nat) ≤ maxInt64) :
    (insertIntoNameTableStmt name values offset params).1
        = nameStageAt name offset values.length
      ∧ (insertIntoNameTableStmt name values offset params).2.1
        = offset + (values.length : Nat) := by
  have hoff : isInt64 offset := ⟨hmin, by unfold maxInt64 at *; omega⟩
  unfold minInt64 at hmin
  unfold maxInt64 at hfit
  refine ⟨?_, ?_⟩
  · by_cases hne : values = []
    · subst hne
      simp [insertIntoNameTableStmt, nameStageAt]
    · have hlen : values.length ≠ 0 := fun h => hne (List.length_eq_zero.mp h)
      rw [insertIntoNameTableStmt_eq name values offset params hne hoff]
      simp only [nameStageAt, if_neg hlen, placeholdersAt, List.map_map]
      congr 1
      apply List.map_congr_left
      intro j hj
      have hj2 : j < values.length := List.mem_range.mp hj
      have hw : wrapInt64 (offset + (j : Nat)) = offset + (j : Nat) := by
        unfold wrapInt64
        omega
      simp [valueGroup, placeholder, hw]
  · rw [insertIntoNameTableStmt_offset name values offset params hoff]
    unfold wrapInt64
    omega

theorem placeholdersAt_append (start : Int) (a b : Nat) :
    placeholdersAt start a ++ placeholdersAt (start + (a : Nat)) b = placeholdersAt start (a + b) := by
  simp only [placeholdersAt, List.range_add, List.map_append, List.map_map]
  congr 1
  apply List.map_congr_left
  intro j _
  simp only [Function.comp]
  congr 2
  push_cast
  omega

theorem placeholdersAt_nodup (start : Int) (len : Nat) : (placeholdersAt start len).Nodup := by
  unfold placeholdersAt
  apply List.Nodup.map_on _ (List.nodup_range len)
  intro i _ j _ h
  have hdata := congrArg String.data h
  simp only [String.data_append, List.append_cancel_left_eq] at hdata
  have := itoa_injective (String.ext hdata)
  omega

/-- C4: when the four child lists are processed in table order by successive calls of
`insertIntoNameTableStmt`, the first from offset 19 and each next one from the offset the
previous call returned, the `j`-th name of a list gets the placeholder numbered 19 plus the
total length of the earlier lists plus `j`; an empty list yields no text and moves nothing;
for `N` names in total the placeholders are `$19, ..., $(18+N)` in order, each once, and the
last call returns `19 + N`. (The numbering is taken to fit in an `int`:
`19 + N ≤ maxInt64`.) -/
theorem placeholders_of_child_lists (t1 t2 t3 t4 : String)
    (ingredients instructions keywords tools : List String) (m1 m2 m3 m4 : StrMap)
    (hfit : (19 : Int) + ((ingredients.length + instructions.length + keywords.length
      + tools.length : Nat) : Int) ≤ maxInt64) :
    let r1 := insertIntoNameTableStmt t1 ingredients 19 m1
    let r2 := insertIntoNameTableStmt t2 instructions r1.2.1 m2
    let r3 := insertIntoNameTableStmt t3 keywords r2.2.1 m3
    let r4 := insertIntoNameTableStmt t4 tools r3.2.1 m4
    let n1 := ingredients.length
    let n2 := instructions.length
    let n3 := keywords.length
    let n4 := tools.length
    r1.1 = nameStageAt t1 19 n1
      ∧ r2.1 = nameStageAt t2 (19 + (n1 : Nat)) n2
      ∧ r3.1 = nameStageAt t3 (19 + ((n1 + n2 : Nat) : Int)) n3
      ∧ r4.1 = nameStageAt t4 (19 + ((n1 + n2 + n3 : Nat) : Int)) n4
      ∧ r4.2.1 = 19 + ((n1 + n2 + n3 + n4 : Nat) : Int)
      ∧ placeholdersAt 19 n1 ++ placeholdersAt (19 + (n1 : Nat)) n2
            ++ placeholdersAt (19 + ((n1 + n2 : Nat) : Int)) n3
            ++ placeholdersAt (19 + ((n1 + n2 + n3 : Nat) : Int)) n4
          = placeholdersAt 19 (n1 + n2 + n3 + n4)
      ∧ (placeholdersAt 19 (n1 + n2 + n3 + n4)).Nodup := by
  intro r1 r2 r3 r4 n1 n2 n3 n4
  have hmax : (19 : Int) + ((ingredients.length : Nat) : Int) + ((instructions.length : Nat) : Int)
      + ((keywords.length : Nat) : Int) + ((tools.length : Nat) : Int)
      ≤ 9223372036854775807 := by
    have := hfit
    unfold maxInt64 at this
    push_cast at this
    omega
  clear hfit
  have h1 := insertIntoNameTableStmt_at t1 ingredients 19 m1 (by decide)
    (by unfold maxInt64; omega)
  have h2 := insertIntoNameTableStmt_at t2 instructions (19 + (ingredients.length : Nat)) m2
    (by unfold minInt64; omega) (by unfold maxInt64; omega)
  have h3 := insertIntoNameTableStmt_at t3 keywords
    (19 + ((ingredients.length + instructions.length : Nat) : Int)) m3
    (by unfold minInt64; omega) (by unfold maxInt64; push_cast; omega)
  have h4 := insertIntoNameTableStmt_at t4 tools
    (19 + ((ingredients.length + instructions.length + keywords.length : Nat) : Int)) m4
    (by unfold minInt64; omega) (by unfold maxInt64; push_cast; omega)
  have e1 : r1.2.1 = 19 + (ingredients.length : Nat) := h1.2
  have e2 : r2.2.1 = 19 + ((ingredients.length + instructions.length : Nat) : Int) := by
    show (insertIntoNameTableStmt t2 instructions r1.2.1 m2).2.1 = _
    rw [e1, h2.2]; push_cast; omega
  have e3 : r3.2.1
      = 19 + ((ingredients.length + instructions.length + keywords.length : Nat) : Int) := by
    show (insertIntoNameTableStmt t3 keywords r2.2.1 m3).2.1 = _
    rw [e2, h3.2]; push_cast; omega
  refine ⟨h1.1, ?_, ?_, ?_, ?_, ?_, placeholdersAt_nodup _ _⟩
  · show (insertIntoNameTableStmt t2 instructions r1.2.1 m2).1 = _
    rw [e1]; exact h2.1
  · show (insertIntoNameTableStmt t3 keywords r2.2.1 m3).1 = _
    rw [e2]; exact h3.1
  · show (insertIntoNameTableStmt t4 tools r3.2.1 m4).1 = _
    rw [e3]; exact h4.1
  · show (insertIntoNameTableStmt t4 tools r3.2.1 m4).2.1 = _
    rw [e3, h4.2]; push_cast; omega
  · show placeholdersAt 19 ingredients.length
        ++ placeholdersAt (19 + (ingredients.length : Nat)) instructions.length
        ++ placeholdersAt (19 + ((ingredients.length + instructions.length : Nat) : Int))
            keywords.length
        ++ placeholdersAt
            (19 + ((ingredients.length + instructions.length + keywords.length : Nat) : Int))
            tools.length
      = placeholdersAt 19
          (ingredients.length + instructions.length + keywords.length + tools.length)
    rw [placeholdersAt_append, placeholdersAt_append, placeholdersAt_append]

theorem placeholders_of_child_lists_witness :
    let r1 := insertIntoNameTableStmt "ingredients" ["salt", "oil"] 19 StrMap.empty
    let r2 := insertIntoNameTableStmt "instructions" [] r1.2.1 StrMap.empty
    let r3 := insertIntoNameTableStmt "keywords" ["soup"] r2.2.1 StrMap.empty
    let r4 := insertIntoNameTableStmt "tools" ["whisk", "bowl"] r3.2.1 StrMap.empty
    let n1 := ["salt", "oil"].length
    let n2 := ([] : List String).length
    let n3 := ["soup"].length
    let n4 := ["whisk", "bowl"].length
    r1.1 = nameStageAt "ingredients" 19 n1
      ∧ r2.1 = nameStageAt "instructions" (19 + (n1 : Nat)) n2
      ∧ r3.1 = nameStageAt "keywords" (19 + ((n1 + n2 : Nat) : Int)) n3
      ∧ r4.1 = nameStageAt "tools" (19 + ((n1 + n2 + n3 : Nat) : Int)) n4
      ∧ r4.2.1 = 19 + ((n1 + n2 + n3 + n4 : Nat) : Int)
      ∧ placeholdersAt 19 n1 ++ placeholdersAt (19 + (n1 : Nat)) n2
            ++ placeholdersAt (19 + ((n1 + n2 : Nat) : Int)) n3
            ++ placeholdersAt (19 + ((n1 + n2 + n3 : Nat) : Int)) n4
          = placeholdersAt 19 (n1 + n2 + n3 + n4)
      ∧ (placeholdersAt 19 (n1 + n2 + n3 + n4)).Nodup :=
  placeholders_of_child_lists "ingredients" "instructions" "keywords" "tools"
    ["salt", "oil"] [] ["soup"] ["whisk", "bowl"] StrMap.empty StrMap.empty StrMap.empty
    StrMap.empty (by decide)

/-! ## Numbering of the update statement -/

theorem insertIntoNameTableStmt_map_of_not_mem (name : String) (values : List String)
    (offset : Int) (params : StrMap) (k : String) (hk : k ∉ values) :
    (insertIntoNameTableStmt name values offset params).2.2 k = params k := by
  unfold insertIntoNameTableStmt
  split
  · rfl
  · exact nameLoop_map_of_not_mem values.length values 0 _ offset params k hk

theorem insertIntoNameTableStmt_map_at (name : String) (values : List String) (offset : Int)
    (params : StrMap) (hmin : minInt64 ≤ offset)
    (hfit : offset + (values.length : Nat) ≤ maxInt64) (v : String) (hv : v ∈ values) :
    ∃ j : Nat, j < values.length
      ∧ (insertIntoNameTableStmt name values offset params).2.2 v
          = some ("$" ++ itoa (offset + (j : Nat))) := by
  have hoff : isInt64 offset := ⟨hmin, by unfold maxInt64 at *; omega⟩
  obtain ⟨j, hj, hm⟩ := insertIntoNameTableStmt_map_of_mem name values offset params hoff v hv
  have hjl : j < values.length := (List.getElem?_eq_some.mp hj).1
  refine ⟨j, hjl, ?_⟩
  rw [hm]
  unfold minInt64 at hmin
  unfold maxInt64 at hfit
  have hw : wrapInt64 (offset + (j : Nat)) = offset + (j : Nat) := by
    unfold wrapInt64
    omega
  simp [placeholder, hw]

theorem initLoop_params (tables : List tableData) :
    ∀ p : nameParams, minInt64 ≤ p.offset →
      p.offset + (totalEntries tables : Nat) ≤ maxInt64 →
      (∀ key : String, (nameParams.init.loop tables p).params key = p.params key
          ∨ ∃ k : Nat, k < totalEntries tables
              ∧ (nameParams.init.loop tables p).params key
                  = some ("$" ++ itoa (p.offset + (k : Nat))))
        ∧ ∀ td ∈ tables, ∀ v ∈ td.Entries, ∃ k : Nat, k < totalEntries tables
              ∧ (nameParams.init.loop tables p).params v
                  = some ("$" ++ itoa (p.offset + (k : Nat))) := by
  induction tables with
  | nil =>
    intro p _ _
    refine ⟨fun key => Or.inl rfl, ?_⟩
    intro td htd
    simp at htd
  | cons td tds ih =>
    intro p hmin hfit
    have htot : totalEntries (td :: tds) = td.Entries.length + totalEntries tds := by
      simp [totalEntries]
    rw [htot] at hfit ⊢
    push_cast at hfit
    have hfit1 : p.offset + (td.Entries.length : Nat) ≤ maxInt64 := by
      unfold maxInt64 at *; omega
    have hat := insertIntoNameTableStmt_at td.Table td.Entries p.offset p.params hmin hfit1
    have hmin2 : minInt64 ≤ (insertIntoNameTableStmt td.Table td.Entries p.offset p.params).2.1 := by
      rw [hat.2]; unfold minInt64 at *; omega
    have hfit2 : (insertIntoNameTableStmt td.Table td.Entries p.offset p.params).2.1
        + (totalEntries tds : Nat) ≤ maxInt64 := by
      rw [hat.2]; unfold maxInt64 at *; omega
    have key := ih
      ⟨p.stmts ++ [(insertIntoNameTableStmt td.Table td.Entries p.offset p.params).1],
        (insertIntoNameTableStmt td.Table td.Entries p.offset p.params).2.1,
        (insertIntoNameTableStmt td.Table td.Entries p.offset p.params).2.2⟩ hmin2 hfit2
    simp only [nameParams.init.loop]
    generalize nameParams.init.loop tds
      ⟨p.stmts ++ [(insertIntoNameTableStmt td.Table td.Entries p.offset p.params).1],
        (insertIntoNameTableStmt td.Table td.Entries p.offset p.params).2.1,
        (insertIntoNameTableStmt td.Table td.Entries p.offset p.params).2.2⟩ = q at key ⊢
    simp only [hat.2] at key
    obtain ⟨ih1, ih2⟩ := key
    have shift : ∀ k : Nat, p.offset + (td.Entries.length : Nat) + (k : Nat)
        = p.offset + ((td.Entries.length + k : Nat) : Int) := by
      intro k; push_cast; omega
    have hhead : ∀ key : String,
        (insertIntoNameTableStmt td.Table td.Entries p.offset p.params).2.2 key = p.params key
          ∨ ∃ j : Nat, j < td.Entries.length
              ∧ (insertIntoNameTableStmt td.Table td.Entries p.offset p.params).2.2 key
                  = some ("$" ++ itoa (p.offset + (j : Nat))) := by
      intro key
      by_cases hk : key ∈ td.Entries
      · exact Or.inr (insertIntoNameTableStmt_map_at td.Table td.Entries p.offset p.params hmin
          hfit1 key hk)
      · exact Or.inl (insertIntoNameTableStmt_map_of_not_mem td.Table td.Entries p.offset
          p.params key hk)
    have hall : ∀ key : String,
        (∃ j : Nat, j < td.Entries.length
              ∧ (insertIntoNameTableStmt td.Table td.Entries p.offset p.params).2.2 key
                  = some ("$" ++ itoa (p.offset + (j : Nat)))) →
        ∃ k : Nat, k < td.Entries.length + totalEntries tds
          ∧ q.params key
              = some ("$" ++ itoa (p.offset + (k : Nat))) := by
      intro key ⟨j, hj, hm⟩
      rcases ih1 key with h | ⟨k, hk, h⟩
      · exact ⟨j, by omega, by rw [h, hm]⟩
      · exact ⟨td.Entries.length + k, by omega, by rw [h, shift]⟩
    refine ⟨?_, ?_⟩
    · intro key
      rcases hhead key with h | h
      · rcases ih1 key with h1 | ⟨k, hk, h1⟩
        · exact Or.inl (by rw [h1, h])
        · exact Or.inr ⟨td.Entries.length + k, by omega, by rw [h1, shift]⟩
      · exact Or.inr (hall key h)
    · intro td2 htd2 v hv
      rcases List.mem_cons.mp htd2 with rfl | hmem
      · exact hall v (insertIntoNameTableStmt_map_at td2.Table td2.Entries p.offset p.params hmin
          hfit1 v hv)
      · obtain ⟨k, hk, h⟩ := ih2 td2 hmem v hv
        exact ⟨td.Entries.length + k, by omega, by rw [h, shift]⟩

theorem initLoop_stmts (tables : List tableData) :
    ∀ p : nameParams, minInt64 ≤ p.offset →
      p.offset + (totalEntries tables : Nat) ≤ maxInt64 →
      (nameParams.init.loop tables p).stmts = p.stmts ++ stagesFrom tables p.offset
        ∧ (nameParams.init.loop tables p).offset = p.offset + (totalEntries tables : Nat) := by
  induction tables with
  | nil =>
    intro p _ _
    simp [nameParams.init.loop, stagesFrom, totalEntries]
  | cons td tds ih =>
    intro p hmin hfit
    have htot : totalEntries (td :: tds) = td.Entries.length + totalEntries tds := by
      simp [totalEntries]
    rw [htot] at hfit ⊢
    push_cast at hfit
    have hfit1 : p.offset + (td.Entries.length : Nat) ≤ maxInt64 := by
      unfold maxInt64 at *; omega
    have hat := insertIntoNameTableStmt_at td.Table td.Entries p.offset p.params hmin hfit1
    have hmin2 : minInt64 ≤ (insertIntoNameTableStmt td.Table td.Entries p.offset p.params).2.1 := by
      rw [hat.2]; unfold minInt64 at *; omega
    have hfit2 : (insertIntoNameTableStmt td.Table td.Entries p.offset p.params).2.1
        + (totalEntries tds : Nat) ≤ maxInt64 := by
      rw [hat.2]; unfold maxInt64 at *; omega
    have key := ih
      ⟨p.stmts ++ [(insertIntoNameTableStmt td.Table td.Entries p.offset p.params).1],
        (insertIntoNameTableStmt td.Table td.Entries p.offset p.params).2.1,
        (insertIntoNameTableStmt td.Table td.Entries p.offset p.params).2.2⟩ hmin2 hfit2
    simp only [nameParams.init.loop]
    generalize nameParams.init.loop tds
      ⟨p.stmts ++ [(insertIntoNameTableStmt td.Table td.Entries p.offset p.params).1],
        (insertIntoNameTableStmt td.Table td.Entries p.offset p.params).2.1,
        (insertIntoNameTableStmt td.Table td.Entries p.offset p.params).2.2⟩ = q at key ⊢
    simp only [hat.2, hat.1] at key
    refine ⟨?_, ?_⟩
    · rw [key.1]
      simp [stagesFrom]
    · rw [key.2]
      push_cast
      omega

/-- C6, as the code has it: on update the fixed fields take the positions 1 to 18 (the
fixed text of `updateRecipeStmt` reads `$18` and never `$19`), and the child names are
numbered from 19 on: the insert-if-new stages are those that start at `$19`, and every name of
every list is assigned `$(19+k)` for some `k` below the total number of names. No name is
assigned a placeholder numbered 18 or lower. (The numbering is taken to fit in an `int`.) -/
theorem updateRecipeStmt_names_from_19 (tables : List tableData)
    (hfit : (19 : Int) + (totalEntries tables : Nat) ≤ maxInt64) :
    updateRecipeStmt tables
        = updateRecipeStmtHead ++ (nameParams.init tables 19).insertStmts tables false
          ++ updateRecipeStmtTail
      ∧ (nameParams.init tables 19).stmts = stagesFrom tables 19
      ∧ (∀ td ∈ tables, ∀ v ∈ td.Entries, ∃ k : Nat, k < totalEntries tables
          ∧ (nameParams.init tables 19).params.lookup v = "$" ++ itoa (19 + (k : Nat)))
      ∧ occursIn "$18" updateRecipeStmtHead
      ∧ ¬ occursIn "$19" (updateRecipeStmtHead ++ updateRecipeStmtTail) := by
  have hs := initLoop_stmts tables ⟨[], 19, StrMap.empty⟩ (by decide) hfit
  have hp := initLoop_params tables ⟨[], 19, StrMap.empty⟩ (by decide) hfit
  refine ⟨rfl, ?_, ?_, by decide!, by decide!⟩
  · simpa [nameParams.init] using hs.1
  · intro td htd v hv
    obtain ⟨k, hk, h⟩ := hp.2 td htd v hv
    refine ⟨k, hk, ?_⟩
    simp only [nameParams.init, StrMap.lookup]
    rw [h]
    rfl

theorem updateRecipeStmt_names_from_19_witness :
    updateRecipeStmt [⟨"ingredients", "ingredient_recipe", ["salt", "oil"]⟩,
            ⟨"tools", "tool_recipe", ["whisk"]⟩]
        = updateRecipeStmtHead
          ++ (nameParams.init [⟨"ingredients", "ingredient_recipe", ["salt", "oil"]⟩,
                ⟨"tools", "tool_recipe", ["whisk"]⟩] 19).insertStmts
              [⟨"ingredients", "ingredient_recipe", ["salt", "oil"]⟩,
                ⟨"tools", "tool_recipe", ["whisk"]⟩] false
          ++ updateRecipeStmtTail
      ∧ (nameParams.init [⟨"ingredients", "ingredient_recipe", ["salt", "oil"]⟩,
            ⟨"tools", "tool_recipe", ["whisk"]⟩] 19).stmts
          = stagesFrom [⟨"ingredients", "ingredient_recipe", ["salt", "oil"]⟩,
              ⟨"tools", "tool_recipe", ["whisk"]⟩] 19
      ∧ (∀ td ∈ [(⟨"ingredients", "ingredient_recipe", ["salt", "oil"]⟩ : tableData),
            ⟨"tools", "tool_recipe", ["whisk"]⟩], ∀ v ∈ td.Entries,
          ∃ k : Nat, k < totalEntries [⟨"ingredients", "ingredient_recipe", ["salt", "oil"]⟩,
              ⟨"tools", "tool_recipe", ["whisk"]⟩]
            ∧ (nameParams.init [⟨"ingredients", "ingredient_recipe", ["salt", "oil"]⟩,
                ⟨"tools", "tool_recipe", ["whisk"]⟩] 19).params.lookup v
              = "$" ++ itoa (19 + (k : Nat)))
      ∧ occursIn "$18" updateRecipeStmtHead
      ∧ ¬ occursIn "$19" (updateRecipeStmtHead ++ updateRecipeStmtTail) :=
  updateRecipeStmt_names_from_19 [⟨"ingredients", "ingredient_recipe", ["salt", "oil"]⟩,
    ⟨"tools", "tool_recipe", ["whisk"]⟩] (by decide)

/-- C6 fails as stated: with the single child name `salt`, `updateRecipeStmt` assigns it the
placeholder `$19`, which is not numbered above 19. -/
theorem updateRecipeStmt_first_name_is_19 :
    (nameParams.init [⟨"ingredients", "ingredient_recipe", ["salt"]⟩] 19).params.lookup "salt"
        = "$19"
      ∧ (nameParams.init [⟨"ingredients", "ingredient_recipe", ["salt"]⟩] 19).insertStmts
            [⟨"ingredients", "ingredient_recipe", ["salt"]⟩] false
          = nameStage "ingredients" ["($19)"]
            ++ relinkStage "ingredient_recipe" "ingredient"
                [relinkPair "ins_ingredients" "ingredients" "$1" "$19"]
      ∧ ¬ ∃ k : Int, 19 < k
          ∧ (nameParams.init [⟨"ingredients", "ingredient_recipe", ["salt"]⟩] 19).params.lookup
              "salt" = "$" ++ itoa k := by
  refine ⟨by decide, by decide, ?_⟩
  rintro ⟨k, hk, h⟩
  have h19 : (nameParams.init [⟨"ingredients", "ingredient_recipe", ["salt"]⟩] 19).params.lookup
      "salt" = "$" ++ itoa 19 := by decide
  rw [h19] at h
  have hdata := congrArg String.data h
  simp only [String.data_append, List.append_cancel_left_eq] at hdata
  have := itoa_injective (String.ext hdata)
  omega

/-! ## Clearing of association rows on update -/

theorem not_mem_append_data {c : Char} {a b : String} (ha : c ∉ a.data) (hb : c ∉ b.data) :
    c ∉ (a ++ b).data := by
  simp [String.data_append, ha, hb]

theorem not_mem_intercalate_data (c : Char) (sep : String) (hsep : c ∉ sep.data)
    (l : List String) (hl : ∀ s ∈ l, c ∉ s.data) : c ∉ (sep.intercalate l).data := by
  induction l with
  | nil => simp [String.intercalate]
  | cons a as ih =>
    cases as with
    | nil =>
      rw [intercalate_singleton]
      exact hl a (List.mem_cons_self _ _)
    | cons b bs =>
      rw [intercalate_cons_cons]
      exact not_mem_append_data
        (not_mem_append_data (hl a (List.mem_cons_self _ _)) hsep)
        (ih (fun s hs => hl s (List.mem_cons_of_mem _ hs)))

theorem not_occursIn_of_not_mem {c : Char} {pat s : String} (hc : c ∈ pat.data)
    (hs : c ∉ s.data) : ¬ occursIn pat s := by
  intro h
  exact hs (List.IsInfix.subset h hc)

theorem splitNHead_not_mem {c : Char} {s : String} (h : c ∉ s.data) :
    c ∉ (splitNHead s).data := by
  intro hc
  exact h ((List.takeWhile_sublist _).subset hc)

theorem relinkPair_no_D {fromName table recipeID p : String}
    (hF : 'D' ∉ fromName.data) (hT : 'D' ∉ table.data) (hR : 'D' ∉ recipeID.data)
    (hp : 'D' ∉ p.data) : 'D' ∉ (relinkPair fromName table recipeID p).data := by
  simp only [relinkPair, String.data_append, List.mem_append, not_or]
  repeat' constructor
  all_goals first | assumption | decide

theorem relinkStage_no_D {assoc col : String} {pairs : List String}
    (hA : 'D' ∉ assoc.data) (hC : 'D' ∉ col.data) (hP : ∀ s ∈ pairs, 'D' ∉ s.data) :
    'D' ∉ (relinkStage assoc col pairs).data := by
  have hI := not_mem_intercalate_data 'D' "," (by decide) pairs hP
  simp only [relinkStage, String.data_append, List.mem_append, not_or]
  repeat' constructor
  all_goals first | assumption | decide

/-- C8, as the code has it: the statement built for update holds no DELETE. For a non-empty
child list the relink stage built with `isInsRecipeDefiend` false is only the INSERT into the
association table with `recipe_id` `$1`; it contains no DELETE (table names and placeholders
being free of the letter `D`), nor does the fixed text of `updateRecipeStmt`. The clearing is
the separate fixed statement `deleteAssocTableEntries`, which deletes the rows with
`recipe_id = $1` from `ingredient_recipe`, `instruction_recipe`, `tool_recipe` and
`keyword_recipe`. -/
theorem update_relink_has_no_delete (td : tableData) (fromName : String) (params : StrMap)
    (hne : td.Entries ≠ []) (hT : 'D' ∉ td.Table.data) (hA : 'D' ∉ td.AssocTable.data)
    (hF : 'D' ∉ fromName.data) (hP : ∀ v ∈ td.Entries, 'D' ∉ (params.lookup v).data) :
    insertIntoAssocTableStmt td fromName params false
        = relinkStage td.AssocTable (splitNHead td.AssocTable)
            (td.Entries.map (fun v => relinkPair fromName td.Table "$1" (params.lookup v)))
      ∧ ¬ occursIn "DELETE" (insertIntoAssocTableStmt td fromName params false)
      ∧ ¬ occursIn "DELETE" updateRecipeStmtHead
      ∧ ¬ occursIn "DELETE" updateRecipeStmtTail
      ∧ occursIn "DELETE FROM ingredient_recipe\n\t\tWHERE recipe_id = $1" deleteAssocTableEntries
      ∧ occursIn "DELETE FROM instruction_recipe\n\t\tWHERE recipe_id = $1" deleteAssocTableEntries
      ∧ occursIn "DELETE FROM tool_recipe\n\t\tWHERE recipe_id = $1" deleteAssocTableEntries
      ∧ occursIn "DELETE FROM keyword_recipe\n\tWHERE recipe_id = $1" deleteAssocTableEntries := by
  have heq := insertIntoAssocTableStmt_eq td fromName params false hne
  refine ⟨heq, ?_, by decide!, by decide!, by decide!, by decide!, by decide!, by decide!⟩
  rw [heq]
  apply not_occursIn_of_not_mem (c := 'D') (by decide)
  apply relinkStage_no_D hA (splitNHead_not_mem hA)
  intro s hs
  obtain ⟨v, hv, rfl⟩ := List.mem_map.mp hs
  exact relinkPair_no_D hF hT (by decide) (hP v hv)

theorem update_relink_has_no_delete_witness :
    insertIntoAssocTableStmt ⟨"ingredients", "ingredient_recipe", ["salt", "oil"]⟩
          "ins_ingredients"
          (insertIntoNameTableStmt "ingredients" ["salt", "oil"] 19 StrMap.empty).2.2 false
        = relinkStage "ingredient_recipe" (splitNHead "ingredient_recipe")
            (["salt", "oil"].map (fun v => relinkPair "ins_ingredients" "ingredients" "$1"
              ((insertIntoNameTableStmt "ingredients" ["salt", "oil"] 19
                StrMap.empty).2.2.lookup v)))
      ∧ ¬ occursIn "DELETE" (insertIntoAssocTableStmt
          ⟨"ingredients", "ingredient_recipe", ["salt", "oil"]⟩ "ins_ingredients"
          (insertIntoNameTableStmt "ingredients" ["salt", "oil"] 19 StrMap.empty).2.2 false)
      ∧ ¬ occursIn "DELETE" updateRecipeStmtHead
      ∧ ¬ occursIn "DELETE" updateRecipeStmtTail
      ∧ occursIn "DELETE FROM ingredient_recipe\n\t\tWHERE recipe_id = $1" deleteAssocTableEntries
      ∧ occursIn "DELETE FROM instruction_recipe\n\t\tWHERE recipe_id = $1" deleteAssocTableEntries
      ∧ occursIn "DELETE FROM tool_recipe\n\t\tWHERE recipe_id = $1" deleteAssocTableEntries
      ∧ occursIn "DELETE FROM keyword_recipe\n\tWHERE recipe_id = $1" deleteAssocTableEntries :=
  update_relink_has_no_delete ⟨"ingredients", "ingredient_recipe", ["salt", "oil"]⟩
    "ins_ingredients" (insertIntoNameTableStmt "ingredients" ["salt", "oil"] 19 StrMap.empty).2.2
    (by decide) (by decide) (by decide) (by decide) (by decide)

/-- C8 fails as stated: the statement `updateRecipeStmt` builds for the non-empty ingredient
list `salt` contains the INSERT into `ingredient_recipe` and no DELETE at all. -/
theorem updateRecipeStmt_has_no_delete :
    occursIn "INSERT INTO ingredient_recipe (ingredient_id, recipe_id) VALUES "
        (updateRecipeStmt [⟨"ingredients", "ingredient_recipe", ["salt"]⟩])
      ∧ ¬ occursIn "DELETE"
        (updateRecipeStmt [⟨"ingredients", "ingredient_recipe", ["salt"]⟩]) := by
  refine ⟨by decide!, by decide!⟩

/-! ## The image assignment -/

/-- C9: the image assignment of `updateRecipeStmt` stores the new value `$4` exactly when
`$4` is not the nil uuid and differs from the stored image, and keeps the stored image
otherwise: supplying the nil uuid leaves any stored image as it is, and supplying another
uuid that differs from the stored one overwrites it with that value. -/
theorem imageAssignment_conditional :
    (∀ image : Option Uuid, imageAssignment (some uuid_nil) image = image)
      ∧ (∀ p4 image : Uuid, p4 ≠ uuid_nil → p4 ≠ image →
          imageAssignment (some p4) (some image) = some p4)
      ∧ (∀ p4 image : Uuid, imageAssignment (some p4) (some image)
          = some (if p4 ≠ uuid_nil ∧ p4 ≠ image then p4 else image)) := by
  have key : ∀ p4 image : Uuid, imageAssignment (some p4) (some image)
      = some (if p4 ≠ uuid_nil ∧ p4 ≠ image then p4 else image) := by
    intro p4 image
    by_cases h1 : p4 = uuid_nil
    · simp [imageAssignment, sqlNe, sqlAnd, h1]
    · by_cases h2 : p4 = image
      · simp [imageAssignment, sqlNe, sqlAnd, h2]
      · have hb1 : (p4 != uuid_nil) = true := bne_iff_ne.mpr h1
        have hb2 : (p4 != image) = true := bne_iff_ne.mpr h2
        simp [imageAssignment, sqlNe, sqlAnd, h1, h2, hb1, hb2]
  refine ⟨?_, ?_, key⟩
  · intro image
    cases image with
    | none => simp [imageAssignment, sqlNe, sqlAnd]
    | some i => simp [imageAssignment, sqlNe, sqlAnd]
  · intro p4 image h1 h2
    rw [key]
    simp [h1, h2]

end Recipya
